import Mathlib

/-!
Verification of `deploy/deactivate_site.py`.

The script is embedded shallowly: Python strings become `List Char`, file
contents become `List Char`, the filesystem becomes an explicit association
list of paths to contents plus a list of directories, and each function of
the script becomes a Lean function over that state.  Timestamps produced by
`datetime.now()` are passed in explicitly as a `Clock` value.
-/

namespace DeactivateSite

/-- ASCII approximation of Python's `str.isspace` character class, used by
`str.strip` / `str.lstrip` with no arguments. -/
def isPySpace (c : Char) : Bool :=
  c = ' ' || c = '\t' || c = '\n' || c = '\r' || c = '\x0b' || c = '\x0c'

/-- Python `str.lstrip()`: drop leading whitespace. -/
def pyLstrip (s : List Char) : List Char :=
  List.dropWhile isPySpace s

/-- Drop trailing whitespace (the right half of Python `str.strip()`). -/
def rstripWs : List Char → List Char
  | [] => []
  | c :: t =>
    match rstripWs t with
    | [] => if isPySpace c then [] else [c]
    | r => c :: r

/-- Python `str.strip()`: drop whitespace from both ends. -/
def pyStrip (s : List Char) : List Char :=
  rstripWs (pyLstrip s)

/-- Python `line.rstrip("\n")`: drop trailing newline characters. -/
def pyRstripNl : List Char → List Char
  | [] => []
  | c :: t =>
    match pyRstripNl t with
    | [] => if c = '\n' then [] else [c]
    | r => c :: r

/-- Python `s.startswith("#")`. -/
def startsWithHash : List Char → Bool
  | [] => false
  | c :: _ => c = '#'

/-- The comment test of the script: `line.lstrip().startswith("#")`. -/
def isCommented (l : List Char) : Bool :=
  startsWithHash (pyLstrip l)

/-- Auxiliary prefix test for substring search. -/
def beginsWith : List Char → List Char → Bool
  | [], _ => true
  | _ :: _, [] => false
  | a :: as, b :: bs => if a = b then beginsWith as bs else false

/-- Python `needle in hay` on strings: literal substring containment. -/
def substringOf (needle : List Char) : List Char → Bool
  | [] => beginsWith needle []
  | c :: t => beginsWith needle (c :: t) || substringOf needle t

/-- Python `any(token in line_text for token in tokens)`. -/
def matchesAny (tokens : List (List Char)) (text : List Char) : Bool :=
  tokens.any (fun t => substringOf t text)

/-- Split a file's text the way iterating over a Python text handle does:
each produced line keeps its trailing `'\n'`; a final line without a
newline is produced as-is; the empty file yields no lines. -/
def pyLines : List Char → List (List Char)
  | [] => []
  | c :: cs =>
    if c = '\n' then ['\n'] :: pyLines cs
    else
      match pyLines cs with
      | [] => [[c]]
      | l :: ls => (c :: l) :: ls

/-- First-occurrence de-duplication, the effect of building an
`OrderedDict` keyed by the listed values and iterating its keys. -/
def dedupAux (seen : List (List Char)) : List (List Char) → List (List Char)
  | [] => []
  | x :: xs => if x ∈ seen then dedupAux seen xs else x :: dedupAux (x :: seen) xs

/-- Function `normalize_tokens(site, extra_tokens)`: strip every token, de-duplicate
keeping first occurrences, and drop tokens that became empty. -/
def normalize_tokens (site : List Char) (extra_tokens : List (List Char)) : List (List Char) :=
  (dedupAux [] ((site :: extra_tokens).map pyStrip)).filter (fun t => t ≠ [])

/-- A `Match` records the 1-based line number and the text (without its
trailing newline) of a line containing some token. -/
structure Match where
  line_number : Nat
  line_text : List Char
deriving DecidableEq

/-- Per-file scan result: the file path plus the active and the
already-commented matching lines. -/
structure FileAnalysis where
  path : List Char
  active_matches : List Match
  commented_matches : List Match
deriving DecidableEq

/-- The line-classification loop of `analyze_config_file`, over the lines of
the file (with their newlines), numbering from `n`. -/
def analyzeLines (tokens : List (List Char)) : List (List Char) → Nat → List Match × List Match
  | [], _ => ([], [])
  | line :: rest, n =>
    if matchesAny tokens (pyRstripNl line) then
      if isCommented (pyRstripNl line) then
        ((analyzeLines tokens rest (n + 1)).1,
          ⟨n, pyRstripNl line⟩ :: (analyzeLines tokens rest (n + 1)).2)
      else
        (⟨n, pyRstripNl line⟩ :: (analyzeLines tokens rest (n + 1)).1,
          (analyzeLines tokens rest (n + 1)).2)
    else analyzeLines tokens rest (n + 1)

/-- Function `analyze_config_file(path, tokens)` applied to a file whose text is
`content`. -/
def analyze_config_file (path content : List Char) (tokens : List (List Char)) :
    FileAnalysis :=
  let res := analyzeLines tokens (pyLines content) 1
  ⟨path, res.1, res.2⟩

/-- Decimal rendering of a count, for the report lines. -/
def natStr (n : Nat) : List Char := (toString n).data

/-- The lines printed by `print_analysis(label, analysis)`. -/
def print_analysis (label : List Char) (a : FileAnalysis) : List (List Char) :=
  [label ++ ": ".data ++ a.path,
   "  active matching lines: ".data ++ natStr a.active_matches.length,
   "  already commented matching lines: ".data ++ natStr a.commented_matches.length]
  ++ a.active_matches.map
      (fun m => "    L".data ++ natStr m.line_number ++ ": ".data ++ m.line_text)
  ++ [[]]

/-- The fixed comment marker `f"# deactivated {site} {stamp} "` prepended to a
deactivated line. -/
def markerOf (site stamp : List Char) : List Char :=
  "# deactivated ".data ++ site ++ " ".data ++ stamp ++ " ".data

/-- The line-rewriting loop of `comment_matching_lines`: a line whose number
is in `targets` and which is not already comment-prefixed gets the marker
prepended; every other line is kept as-is. -/
def commentLinesCore (targets : List Nat) (site stamp : List Char) :
    List (List Char) → Nat → List (List Char)
  | [], _ => []
  | line :: rest, n =>
    (if n ∈ targets ∧ isCommented line = false then markerOf site stamp ++ line else line)
      :: commentLinesCore targets site stamp rest (n + 1)

/-- The filesystem state: regular files (path to text) and directories.
Later entries of `files` are shadowed by earlier ones. -/
structure FS where
  files : List (List Char × List Char)
  dirs : List (List Char)
deriving DecidableEq

/-- Look up a regular file's content. -/
def lookupFile : List (List Char × List Char) → List Char → Option (List Char)
  | [], _ => none
  | (p, c) :: rest, q => if p = q then some c else lookupFile rest q

/-- Python `Path.exists()`: true for regular files and directories. -/
def existsPath (fs : FS) (p : List Char) : Bool :=
  (lookupFile fs.files p).isSome || decide (p ∈ fs.dirs)

/-- Function `comment_matching_lines(path, matches, site, stamp)`.  With no matches it
returns the original path untouched; otherwise it reads the file, rewrites
the matching lines, copies the original to `<path>.bak.<bstamp>` and writes
the updated lines back.  `none` models an uncaught I/O failure (file
missing). -/
def comment_matching_lines (fs : FS) (path : List Char) (matchList : List Match)
    (site stamp bstamp : List Char) : Option (FS × List Char) :=
  if matchList = [] then some (fs, path)
  else
    match lookupFile fs.files path with
    | none => none
    | some content =>
      let updated := commentLinesCore (matchList.map Match.line_number) site stamp
        (pyLines content) 1
      let backupPath := path ++ ".bak.".data ++ bstamp
      some (⟨(path, updated.flatten) :: (backupPath, content) :: fs.files, fs.dirs⟩, backupPath)

/-- Function `choose_archive_target(archive_dir, site)`: the preferred target
`<archive_dir>/<site>`, or `<archive_dir>/<site>-<now>` when the preferred
target already exists. -/
def choose_archive_target (fs : FS) (archive_dir site now14 : List Char) : List Char :=
  if existsPath fs (archive_dir ++ '/' :: site) then
    archive_dir ++ '/' :: (site ++ '-' :: now14)
  else archive_dir ++ '/' :: site

/- ### Lemmas about stripping and de-duplication -/

theorem rstripWs_sublist (l : List Char) : (rstripWs l).Sublist l := by
  induction l with
  | nil => simp [rstripWs]
  | cons c t ih =>
    simp only [rstripWs]
    cases h : rstripWs t with
    | nil =>
      by_cases hc : isPySpace c = true
      · simp [hc]
      · simp [hc]
    | cons r rs =>
      rw [h] at ih
      exact ih.cons₂ c

theorem rstripWs_head_cons (c : Char) (t : List Char) :
    rstripWs (c :: t) = [] ∨ ∃ r, rstripWs (c :: t) = c :: r := by
  simp only [rstripWs]
  cases h : rstripWs t with
  | nil =>
    by_cases hc : isPySpace c = true
    · simp [hc]
    · simp [hc]
  | cons r rs => exact Or.inr ⟨r :: rs, rfl⟩

theorem rstripWs_cons (c : Char) (l : List Char) :
    rstripWs (c :: l) = match rstripWs l with
      | [] => if isPySpace c then [] else [c]
      | r => c :: r := rfl

theorem rstripWs_cons_of_ne (c : Char) {l : List Char} (h : rstripWs l ≠ []) :
    rstripWs (c :: l) = c :: rstripWs l := by
  rw [rstripWs_cons]
  cases hl : rstripWs l with
  | nil => exact absurd hl h
  | cons r rs => rfl

theorem rstripWs_idem (l : List Char) : rstripWs (rstripWs l) = rstripWs l := by
  induction l with
  | nil => simp [rstripWs]
  | cons c t ih =>
    cases h : rstripWs t with
    | nil =>
      rw [rstripWs_cons, h]
      by_cases hc : isPySpace c = true
      · simp [hc, rstripWs]
      · simp [hc, rstripWs]
    | cons r rs =>
      rw [h] at ih
      rw [rstripWs_cons_of_ne c (by rw [h]; exact List.cons_ne_nil r rs), h,
        rstripWs_cons_of_ne c (by rw [ih]; exact List.cons_ne_nil r rs), ih]

theorem dropWhile_rstripWs (l : List Char) (h : List.dropWhile isPySpace l = l) :
    List.dropWhile isPySpace (rstripWs l) = rstripWs l := by
  cases l with
  | nil => simp [rstripWs]
  | cons c t =>
    have hc : isPySpace c = false := by
      by_contra hcc
      simp only [Bool.not_eq_false] at hcc
      rw [List.dropWhile_cons, if_pos hcc] at h
      have hsub : (List.dropWhile isPySpace t).Sublist t := List.dropWhile_sublist _
      have hlen := (h ▸ hsub).length_le
      simp at hlen
    rcases rstripWs_head_cons c t with h0 | ⟨r, hr⟩
    · simp [h0]
    · rw [hr, List.dropWhile_cons, if_neg (by simp [hc])]

theorem pyStrip_idem (s : List Char) : pyStrip (pyStrip s) = pyStrip s := by
  unfold pyStrip pyLstrip
  rw [dropWhile_rstripWs (List.dropWhile isPySpace s) (List.dropWhile_idempotent _ _),
    rstripWs_idem]

theorem mem_dedupAux {x : List Char} :
    ∀ {l seen}, x ∈ dedupAux seen l → x ∈ l ∧ x ∉ seen := by
  intro l
  induction l with
  | nil => intro seen h; simp [dedupAux] at h
  | cons a t ih =>
    intro seen h
    simp only [dedupAux] at h
    by_cases ha : a ∈ seen
    · rw [if_pos ha] at h
      rcases ih h with ⟨h1, h2⟩
      exact ⟨List.mem_cons_of_mem _ h1, h2⟩
    · rw [if_neg ha] at h
      rcases List.mem_cons.1 h with rfl | hm
      · exact ⟨List.mem_cons_self _ _, ha⟩
      · rcases ih hm with ⟨h1, h2⟩
        refine ⟨List.mem_cons_of_mem _ h1, fun hs => h2 (List.mem_cons_of_mem _ hs)⟩

theorem nodup_dedupAux : ∀ (l seen : List (List Char)), (dedupAux seen l).Nodup := by
  intro l
  induction l with
  | nil => intro seen; simp [dedupAux]
  | cons a t ih =>
    intro seen
    simp only [dedupAux]
    by_cases ha : a ∈ seen
    · rw [if_pos ha]; exact ih seen
    · rw [if_neg ha]
      refine List.Nodup.cons ?_ (ih (a :: seen))
      intro hmem
      exact (mem_dedupAux hmem).2 (List.mem_cons_self _ _)

theorem dedupAux_sublist : ∀ (l seen : List (List Char)), (dedupAux seen l).Sublist l := by
  intro l
  induction l with
  | nil => intro seen; simp [dedupAux]
  | cons a t ih =>
    intro seen
    simp only [dedupAux]
    by_cases ha : a ∈ seen
    · rw [if_pos ha]; exact (ih seen).cons a
    · rw [if_neg ha]; exact (ih (a :: seen)).cons₂ a

theorem dedupAux_of_nodup :
    ∀ (l seen : List (List Char)), l.Nodup → (∀ x ∈ l, x ∉ seen) → dedupAux seen l = l := by
  intro l
  induction l with
  | nil => intro seen _ _; rfl
  | cons a t ih =>
    intro seen hnd hs
    simp only [dedupAux, if_neg (hs a (List.mem_cons_self _ _))]
    rw [ih (a :: seen) (List.Nodup.of_cons hnd)]
    intro x hx
    simp only [List.mem_cons, not_or]
    exact ⟨fun hxa => (List.nodup_cons.1 hnd).1 (hxa ▸ hx), hs x (List.mem_cons_of_mem _ hx)⟩

theorem map_pyStrip_of_stripped {l : List (List Char)} (h : ∀ t ∈ l, pyStrip t = t) :
    l.map pyStrip = l := by
  induction l with
  | nil => rfl
  | cons a t ih =>
    simp only [List.map_cons, h a (List.mem_cons_self _ _), ih fun x hx =>
      h x (List.mem_cons_of_mem _ hx)]

theorem normalize_tokens_mem {site : List Char} {extra : List (List Char)} {t : List Char}
    (h : t ∈ normalize_tokens site extra) :
    pyStrip t = t ∧ t ≠ [] := by
  unfold normalize_tokens at h
  rcases List.mem_filter.1 h with ⟨hmem, hne⟩
  rcases mem_dedupAux hmem with ⟨hin, -⟩
  rcases List.mem_map.1 hin with ⟨y, -, rfl⟩
  exact ⟨pyStrip_idem y, by simpa using hne⟩

theorem normalize_tokens_head (site : List Char) (extra : List (List Char))
    (h : pyStrip site ≠ []) :
    normalize_tokens site extra = pyStrip site ::
      (dedupAux [pyStrip site] (extra.map pyStrip)).filter (fun t => t ≠ []) := by
  unfold normalize_tokens
  simp only [List.map_cons, dedupAux]
  rw [if_neg (List.not_mem_nil _)]
  rw [List.filter_cons, if_pos (by simpa using h)]

/-- Claim C4 (counterexample): with the empty string as the site identifier
the produced token list is empty, so it is not the case that the token set
is always non-empty with the site name included. -/
theorem normalize_tokens_empty_site : normalize_tokens [] [] = [] := by decide

/-- Claim C4 (amended): whenever the stripped site identifier is non-empty
— in particular for every ordinary site name — the token list produced by
`normalize_tokens` is non-empty (it starts with the stripped site name) and
contains no empty strings. -/
theorem normalize_tokens_nonempty_of_site (site : List Char) (extra : List (List Char))
    (h : pyStrip site ≠ []) :
    normalize_tokens site extra ≠ [] ∧ ∀ t ∈ normalize_tokens site extra, t ≠ [] := by
  constructor
  · rw [normalize_tokens_head site extra h]
    exact List.cons_ne_nil _ _
  · intro t ht
    exact (normalize_tokens_mem ht).2

/-- Claim C4 witness. -/
theorem normalize_tokens_nonempty_of_site_witness :
    pyStrip "mit".data ≠ [] ∧
      (normalize_tokens "mit".data [] ≠ [] ∧ ∀ t ∈ normalize_tokens "mit".data [], t ≠ []) :=
  ⟨by decide, normalize_tokens_nonempty_of_site "mit".data [] (by decide)⟩

/-- Claim C7 (counterexample): with a whitespace-only site identifier and an
extra token, the site identifier is not the first element of the result (the
result is just the extra token), refuting the claim as universally stated. -/
theorem normalize_tokens_blank_site_not_first :
    normalize_tokens "  ".data ["x".data] = ["x".data] := by decide

/-- Claim C7 (amended): whenever the stripped site identifier is non-empty,
`normalize_tokens` returns a de-duplicated, order-preserving (a sublist of
the stripped inputs) sequence with the stripped site identifier first, every
element stripped and non-empty; and it is idempotent: re-normalizing the
result (head as site, tail as extras) yields the same list. -/
theorem normalize_tokens_normal_form (site : List Char) (extra : List (List Char))
    (h : pyStrip site ≠ []) :
    (normalize_tokens site extra).head? = some (pyStrip site) ∧
    (normalize_tokens site extra).Nodup ∧
    (∀ t ∈ normalize_tokens site extra, pyStrip t = t ∧ t ≠ []) ∧
    (normalize_tokens site extra).Sublist ((site :: extra).map pyStrip) ∧
    normalize_tokens (pyStrip site) (normalize_tokens site extra).tail
      = normalize_tokens site extra := by
  have hnd : (normalize_tokens site extra).Nodup := by
    unfold normalize_tokens
    exact List.Nodup.filter _ (nodup_dedupAux _ _)
  have hmem : ∀ t ∈ normalize_tokens site extra, pyStrip t = t ∧ t ≠ [] :=
    fun t ht => normalize_tokens_mem ht
  have hhead := normalize_tokens_head site extra h
  refine ⟨by rw [hhead]; rfl, hnd, hmem, ?_, ?_⟩
  · unfold normalize_tokens
    exact (List.filter_sublist _).trans (dedupAux_sublist _ _)
  · rcases hcons : normalize_tokens site extra with _ | ⟨a, t⟩
    · rw [hcons] at hhead; simp at hhead
    · have ha : a = pyStrip site := by
        rw [hcons] at hhead
        simpa using congrArg List.head? hhead
      rw [List.tail_cons, ← ha]
      have hall : ∀ x ∈ a :: t, pyStrip x = x ∧ x ≠ [] := by
        rw [← hcons]; exact hmem
      have hndat : (a :: t).Nodup := by rw [← hcons]; exact hnd
      unfold normalize_tokens
      rw [map_pyStrip_of_stripped (fun x hx => (hall x hx).1)]
      rw [dedupAux_of_nodup _ _ hndat (by simp)]
      rw [List.filter_eq_self.2 (fun x hx => by simpa using (hall x hx).2)]

/-- Claim C7 witness. -/
theorem normalize_tokens_normal_form_witness :
    pyStrip "mit".data ≠ [] ∧
      ((normalize_tokens "mit".data ["x".data]).head? = some (pyStrip "mit".data) ∧
      (normalize_tokens "mit".data ["x".data]).Nodup ∧
      (∀ t ∈ normalize_tokens "mit".data ["x".data], pyStrip t = t ∧ t ≠ []) ∧
      (normalize_tokens "mit".data ["x".data]).Sublist
        (("mit".data :: ["x".data]).map pyStrip) ∧
      normalize_tokens (pyStrip "mit".data) (normalize_tokens "mit".data ["x".data]).tail
        = normalize_tokens "mit".data ["x".data]) :=
  ⟨by decide, normalize_tokens_normal_form "mit".data ["x".data] (by decide)⟩

/- ### Lemmas about line splitting and the rewrite loop -/

theorem pyLines_cons (c : Char) (t : List Char) :
    pyLines (c :: t) = if c = '\n' then ['\n'] :: pyLines t
      else match pyLines t with
        | [] => [[c]]
        | l :: ls => (c :: l) :: ls := rfl

theorem pyRstripNl_cons (c : Char) (t : List Char) :
    pyRstripNl (c :: t) = match pyRstripNl t with
      | [] => if c = '\n' then [] else [c]
      | r => c :: r := rfl

theorem pyLines_flatten (cs : List Char) : (pyLines cs).flatten = cs := by
  induction cs with
  | nil => rfl
  | cons c t ih =>
    by_cases hc : c = '\n'
    · subst hc
      rw [pyLines_cons, if_pos rfl]
      simpa using ih
    · rw [pyLines_cons, if_neg hc]
      cases h : pyLines t with
      | nil =>
        rw [h] at ih
        simp at ih
        simp [← ih]
      | cons l ls =>
        rw [h] at ih
        simpa using ih

theorem commentLinesCore_nil_targets (site stamp : List Char) :
    ∀ (lines : List (List Char)) (n : Nat), commentLinesCore [] site stamp lines n = lines := by
  intro lines
  induction lines with
  | nil => intro n; rfl
  | cons l rest ih =>
    intro n
    simp only [commentLinesCore, List.not_mem_nil, false_and, if_false, ih]

theorem commentLinesCore_length (targets : List Nat) (site stamp : List Char) :
    ∀ (lines : List (List Char)) (n : Nat),
      (commentLinesCore targets site stamp lines n).length = lines.length := by
  intro lines
  induction lines with
  | nil => intro n; rfl
  | cons l rest ih => intro n; simp only [commentLinesCore, List.length_cons, ih]

theorem commentLinesCore_getElem? (targets : List Nat) (site stamp : List Char) :
    ∀ (lines : List (List Char)) (n j : Nat),
      (commentLinesCore targets site stamp lines n)[j]?
        = (lines[j]?).map (fun l =>
            if (n + j) ∈ targets ∧ isCommented l = false
            then markerOf site stamp ++ l else l) := by
  intro lines
  induction lines with
  | nil => intro n j; simp [commentLinesCore]
  | cons l rest ih =>
    intro n j
    cases j with
    | zero => simp [commentLinesCore]
    | succ j =>
      simp only [commentLinesCore, List.getElem?_cons_succ]
      have harith : n + (j + 1) = n + 1 + j := by omega
      rw [harith]
      exact ih (n + 1) j

theorem append_append_ne (p a b : List Char) (ha : a ≠ []) : (p ++ a) ++ b ≠ p := by
  intro h
  have hl := congrArg List.length h
  simp only [List.length_append] at hl
  have ha' : a.length ≠ 0 := fun h0 => ha (List.length_eq_zero.1 h0)
  omega

/-- Claim C6: with an empty active-match list, `comment_matching_lines`
touches nothing (the file stays byte-for-byte identical, no backup appears)
and returns the original path as a no-op signal. -/
theorem comment_matching_lines_noop (fs : FS) (path site stamp bstamp : List Char) :
    comment_matching_lines fs path [] site stamp bstamp = some (fs, path) := by
  simp [comment_matching_lines]

/-- A filesystem in which both the preferred archive target and the
timestamp-suffixed fallback already exist. -/
def archiveCollisionFS : FS :=
  ⟨[], ["/lu/sites/archive/mit".data, "/lu/sites/archive/mit-20260101000000".data]⟩

/-- Claim C1 (counterexample): `choose_archive_target` does not check that the
timestamp-suffixed fallback is free, so when both `<archive_dir>/<site>` and
`<archive_dir>/<site>-<timestamp>` exist it returns a path that exists at call
time, refuting the claim as stated. -/
theorem choose_archive_target_can_collide :
    existsPath archiveCollisionFS
      (choose_archive_target archiveCollisionFS "/lu/sites/archive".data "mit".data
        "20260101000000".data) = true := by decide

/-- Claim C1 (amended): provided the timestamp-suffixed candidate
`<archive_dir>/<site>-<timestamp>` does not already exist, the returned path
does not exist at call time; it is `<archive_dir>/<site>` when that is free
and otherwise the distinct timestamp-suffixed path. -/
theorem choose_archive_target_spec (fs : FS) (archive_dir site now14 : List Char)
    (h : existsPath fs (archive_dir ++ '/' :: (site ++ '-' :: now14)) = false) :
    existsPath fs (choose_archive_target fs archive_dir site now14) = false ∧
    (existsPath fs (archive_dir ++ '/' :: site) = true →
      choose_archive_target fs archive_dir site now14
        = archive_dir ++ '/' :: (site ++ '-' :: now14) ∧
      archive_dir ++ '/' :: (site ++ '-' :: now14) ≠ archive_dir ++ '/' :: site) ∧
    (existsPath fs (archive_dir ++ '/' :: site) = false →
      choose_archive_target fs archive_dir site now14 = archive_dir ++ '/' :: site) := by
  have hdist : archive_dir ++ '/' :: (site ++ '-' :: now14) ≠ archive_dir ++ '/' :: site := by
    intro he
    have h1 : site ++ '-' :: now14 = site :=
      List.cons_injective (List.append_cancel_left he)
    have h2 : ('-' :: now14 : List Char) = [] :=
      List.append_cancel_left (h1.trans (List.append_nil site).symm)
    exact List.cons_ne_nil _ _ h2
  by_cases hb : existsPath fs (archive_dir ++ '/' :: site) = true
  · refine ⟨?_, fun _ => ⟨?_, hdist⟩, fun hf => absurd hb (by rw [hf]; simp)⟩
    · rw [choose_archive_target, if_pos hb]; exact h
    · rw [choose_archive_target, if_pos hb]
  · have hb' : existsPath fs (archive_dir ++ '/' :: site) = false :=
      Bool.not_eq_true _ ▸ (by simpa using hb)
    refine ⟨?_, fun ht => absurd ht hb, fun _ => ?_⟩
    · rw [choose_archive_target, if_neg (by rw [hb']; simp)]; exact hb'
    · rw [choose_archive_target, if_neg (by rw [hb']; simp)]

/-- Claim C1 witness. -/
theorem choose_archive_target_spec_witness :
    existsPath ⟨[], []⟩
      ("/lu/sites/archive".data ++ '/' :: ("mit".data ++ '-' :: "20260101000000".data)) = false ∧
    (existsPath ⟨[], []⟩
        (choose_archive_target ⟨[], []⟩ "/lu/sites/archive".data "mit".data
          "20260101000000".data) = false ∧
      (existsPath ⟨[], []⟩ ("/lu/sites/archive".data ++ '/' :: "mit".data) = true →
        choose_archive_target ⟨[], []⟩ "/lu/sites/archive".data "mit".data "20260101000000".data
          = "/lu/sites/archive".data ++ '/' :: ("mit".data ++ '-' :: "20260101000000".data) ∧
        "/lu/sites/archive".data ++ '/' :: ("mit".data ++ '-' :: "20260101000000".data)
          ≠ "/lu/sites/archive".data ++ '/' :: "mit".data) ∧
      (existsPath ⟨[], []⟩ ("/lu/sites/archive".data ++ '/' :: "mit".data) = false →
        choose_archive_target ⟨[], []⟩ "/lu/sites/archive".data "mit".data "20260101000000".data
          = "/lu/sites/archive".data ++ '/' :: "mit".data)) :=
  ⟨by decide,
    choose_archive_target_spec ⟨[], []⟩ "/lu/sites/archive".data "mit".data
      "20260101000000".data (by decide)⟩

/-- Closed form of `comment_matching_lines` on a non-empty match list over an
existing file. -/
theorem comment_matching_lines_eq (fs : FS) (path : List Char) (matchList : List Match)
    (site stamp bstamp content : List Char)
    (hm : matchList ≠ []) (hc : lookupFile fs.files path = some content) :
    comment_matching_lines fs path matchList site stamp bstamp
      = some (⟨(path, (commentLinesCore (matchList.map Match.line_number) site stamp
            (pyLines content) 1).flatten)
          :: (path ++ ".bak.".data ++ bstamp, content) :: fs.files, fs.dirs⟩,
        path ++ ".bak.".data ++ bstamp) := by
  unfold comment_matching_lines
  rw [if_neg hm, hc]

/-- Claim C3: on a non-empty match list, `comment_matching_lines` writes back
a file with exactly one output line per input line, where a line whose number
is in the match set and which is not comment-prefixed becomes the marker
`# deactivated <site> <stamp> ` followed by the original line (including its
ending), and every other line is written back unchanged; a backup with the
original bytes is created and nothing else in the filesystem changes. -/
theorem comment_matching_lines_rewrites (fs : FS) (path : List Char) (matchList : List Match)
    (site stamp bstamp content : List Char)
    (hm : matchList ≠ []) (hc : lookupFile fs.files path = some content) :
    ∃ fs' : FS,
      comment_matching_lines fs path matchList site stamp bstamp
        = some (fs', path ++ ".bak.".data ++ bstamp) ∧
      lookupFile fs'.files (path ++ ".bak.".data ++ bstamp) = some content ∧
      lookupFile fs'.files path
        = some (commentLinesCore (matchList.map Match.line_number) site stamp
            (pyLines content) 1).flatten ∧
      (commentLinesCore (matchList.map Match.line_number) site stamp (pyLines content) 1).length
        = (pyLines content).length ∧
      (∀ j : Nat,
        (commentLinesCore (matchList.map Match.line_number) site stamp (pyLines content) 1)[j]?
          = ((pyLines content)[j]?).map (fun l =>
              if (1 + j) ∈ matchList.map Match.line_number ∧ isCommented l = false
              then markerOf site stamp ++ l else l)) ∧
      (∀ q : List Char, q ≠ path → q ≠ path ++ ".bak.".data ++ bstamp →
        lookupFile fs'.files q = lookupFile fs.files q) ∧
      (∀ fs'' : FS, comment_matching_lines fs path matchList site stamp bstamp
          = some (fs'', path ++ ".bak.".data ++ bstamp) → fs''.dirs = fs.dirs) := by
  refine ⟨_, comment_matching_lines_eq fs path matchList site stamp bstamp content hm hc,
    ?_, ?_, commentLinesCore_length _ _ _ _ _,
    fun j => commentLinesCore_getElem? _ _ _ _ _ _, ?_, ?_⟩
  · simp only [lookupFile]
    rw [if_neg (fun h => append_append_ne path ".bak.".data bstamp (by decide) h.symm)]
    simp
  · simp only [lookupFile]
    simp
  · intro q h1 h2
    simp only [lookupFile]
    rw [if_neg (fun h => h1 h.symm), if_neg (fun h => h2 h.symm)]
  · intro fs'' h
    rw [comment_matching_lines_eq fs path matchList site stamp bstamp content hm hc] at h
    have h2 := congrArg (fun r => r.1.dirs) (Option.some.inj h)
    simpa using h2.symm

/-- Claim C3 witness. -/
theorem comment_matching_lines_rewrites_witness :
    ([⟨1, "use mit".data⟩] : List Match) ≠ [] ∧
    lookupFile (FS.mk [("/etc/crontab".data, "use mit\nother\n".data)] []).files
      "/etc/crontab".data = some "use mit\nother\n".data ∧
    (∃ fs' : FS,
      comment_matching_lines (FS.mk [("/etc/crontab".data, "use mit\nother\n".data)] [])
          "/etc/crontab".data [⟨1, "use mit".data⟩] "mit".data "2026-01-01".data
          "20260101000000".data
        = some (fs', "/etc/crontab".data ++ ".bak.".data ++ "20260101000000".data) ∧
      lookupFile fs'.files ("/etc/crontab".data ++ ".bak.".data ++ "20260101000000".data)
        = some "use mit\nother\n".data ∧
      lookupFile fs'.files "/etc/crontab".data
        = some (commentLinesCore (([⟨1, "use mit".data⟩] : List Match).map Match.line_number)
            "mit".data "2026-01-01".data (pyLines "use mit\nother\n".data) 1).flatten ∧
      (commentLinesCore (([⟨1, "use mit".data⟩] : List Match).map Match.line_number)
          "mit".data "2026-01-01".data (pyLines "use mit\nother\n".data) 1).length
        = (pyLines "use mit\nother\n".data).length ∧
      (∀ j : Nat,
        (commentLinesCore (([⟨1, "use mit".data⟩] : List Match).map Match.line_number)
            "mit".data "2026-01-01".data (pyLines "use mit\nother\n".data) 1)[j]?
          = ((pyLines "use mit\nother\n".data)[j]?).map (fun l =>
              if (1 + j) ∈ (([⟨1, "use mit".data⟩] : List Match).map Match.line_number) ∧
                  isCommented l = false
              then markerOf "mit".data "2026-01-01".data ++ l else l)) ∧
      (∀ q : List Char, q ≠ "/etc/crontab".data →
        q ≠ "/etc/crontab".data ++ ".bak.".data ++ "20260101000000".data →
        lookupFile fs'.files q
          = lookupFile (FS.mk [("/etc/crontab".data, "use mit\nother\n".data)] []).files q) ∧
      (∀ fs'' : FS, comment_matching_lines
            (FS.mk [("/etc/crontab".data, "use mit\nother\n".data)] [])
            "/etc/crontab".data [⟨1, "use mit".data⟩] "mit".data "2026-01-01".data
            "20260101000000".data
          = some (fs'', "/etc/crontab".data ++ ".bak.".data ++ "20260101000000".data) →
          fs''.dirs = (FS.mk [("/etc/crontab".data, "use mit\nother\n".data)] []).dirs)) :=
  ⟨by decide, by decide,
    comment_matching_lines_rewrites (FS.mk [("/etc/crontab".data, "use mit\nother\n".data)] [])
      "/etc/crontab".data [⟨1, "use mit".data⟩] "mit".data "2026-01-01".data
      "20260101000000".data "use mit\nother\n".data (by decide) (by decide)⟩

/-- Claim C10: even with an arbitrary (possibly stale) match list, a line that
already begins with `#` after stripping leading whitespace is written back
unchanged — the comment guard is re-evaluated against the file's current
content at write time, so no line is ever double-prefixed. -/
theorem commented_lines_never_double_prefixed (fs : FS) (path : List Char)
    (matchList : List Match) (site stamp bstamp content : List Char)
    (hc : lookupFile fs.files path = some content) :
    ∃ (fs' : FS) (ret : List Char),
      comment_matching_lines fs path matchList site stamp bstamp = some (fs', ret) ∧
      lookupFile fs'.files path
        = some (commentLinesCore (matchList.map Match.line_number) site stamp
            (pyLines content) 1).flatten ∧
      ∀ (j : Nat) (l : List Char), (pyLines content)[j]? = some l → isCommented l = true →
        (commentLinesCore (matchList.map Match.line_number) site stamp (pyLines content) 1)[j]?
          = some l := by
  have hpt : ∀ (j : Nat) (l : List Char), (pyLines content)[j]? = some l → isCommented l = true →
      (commentLinesCore (matchList.map Match.line_number) site stamp (pyLines content) 1)[j]?
        = some l := by
    intro j l hj hcm
    rw [commentLinesCore_getElem?, hj]
    simp only [Option.map_some']
    rw [if_neg]
    rintro ⟨-, hf⟩
    rw [hcm] at hf
    exact Bool.noConfusion hf
  by_cases hm : matchList = []
  · subst hm
    refine ⟨fs, path, comment_matching_lines_noop fs path site stamp bstamp, ?_, hpt⟩
    rw [hc, List.map_nil, commentLinesCore_nil_targets, pyLines_flatten]
  · refine ⟨_, _,
      comment_matching_lines_eq fs path matchList site stamp bstamp content hm hc, ?_, hpt⟩
    simp only [lookupFile]
    simp

/-- Claim C10 witness. -/
theorem commented_lines_never_double_prefixed_witness :
    lookupFile (FS.mk [("f".data, "# mit\n".data)] []).files "f".data
      = some "# mit\n".data ∧
    (∃ (fs' : FS) (ret : List Char),
      comment_matching_lines (FS.mk [("f".data, "# mit\n".data)] []) "f".data
          [⟨1, "# mit".data⟩] "mit".data "2026-01-01".data "20260101000000".data
        = some (fs', ret) ∧
      lookupFile fs'.files "f".data
        = some (commentLinesCore (([⟨1, "# mit".data⟩] : List Match).map Match.line_number)
            "mit".data "2026-01-01".data (pyLines "# mit\n".data) 1).flatten ∧
      ∀ (j : Nat) (l : List Char), (pyLines "# mit\n".data)[j]? = some l → isCommented l = true →
        (commentLinesCore (([⟨1, "# mit".data⟩] : List Match).map Match.line_number)
            "mit".data "2026-01-01".data (pyLines "# mit\n".data) 1)[j]?
          = some l) :=
  ⟨by decide,
    commented_lines_never_double_prefixed (FS.mk [("f".data, "# mit\n".data)] []) "f".data
      [⟨1, "# mit".data⟩] "mit".data "2026-01-01".data "20260101000000".data
      "# mit\n".data (by decide)⟩

/- ### Lemmas about the scanner -/

theorem analyzeLines_num_ge (tokens : List (List Char)) :
    ∀ (lines : List (List Char)) (k n : Nat),
      (n ∈ (analyzeLines tokens lines k).1.map Match.line_number ∨
       n ∈ (analyzeLines tokens lines k).2.map Match.line_number) → k ≤ n := by
  intro lines
  induction lines with
  | nil => intro k n h; simp [analyzeLines] at h
  | cons line rest ih =>
    intro k n h
    simp only [analyzeLines] at h
    by_cases h1 : matchesAny tokens (pyRstripNl line) = true
    · rw [if_pos h1] at h
      by_cases h2 : isCommented (pyRstripNl line) = true
      · rw [if_pos h2] at h
        simp only [List.map_cons, List.mem_cons] at h
        rcases h with ha | rfl | hb
        · exact Nat.le_of_succ_le (ih (k + 1) n (Or.inl ha))
        · exact Nat.le_refl _
        · exact Nat.le_of_succ_le (ih (k + 1) n (Or.inr hb))
      · rw [if_neg h2] at h
        simp only [List.map_cons, List.mem_cons] at h
        rcases h with (rfl | ha) | hb
        · exact Nat.le_refl _
        · exact Nat.le_of_succ_le (ih (k + 1) n (Or.inl ha))
        · exact Nat.le_of_succ_le (ih (k + 1) n (Or.inr hb))
    · rw [if_neg h1] at h
      exact Nat.le_of_succ_le (ih (k + 1) n h)

theorem analyzeLines_disjoint (tokens : List (List Char)) :
    ∀ (lines : List (List Char)) (k n : Nat),
      n ∈ (analyzeLines tokens lines k).1.map Match.line_number →
      n ∉ (analyzeLines tokens lines k).2.map Match.line_number := by
  intro lines
  induction lines with
  | nil => intro k n h; simp [analyzeLines] at h
  | cons line rest ih =>
    intro k n h hcon
    simp only [analyzeLines] at h hcon
    by_cases h1 : matchesAny tokens (pyRstripNl line) = true
    · rw [if_pos h1] at h hcon
      by_cases h2 : isCommented (pyRstripNl line) = true
      · rw [if_pos h2] at h hcon
        simp only [List.map_cons, List.mem_cons] at h hcon
        rcases hcon with rfl | hcon
        · have := analyzeLines_num_ge tokens rest (n + 1) n (Or.inl h)
          omega
        · exact ih (k + 1) n h hcon
      · rw [if_neg h2] at h hcon
        simp only [List.map_cons, List.mem_cons] at h hcon
        rcases h with rfl | h
        · have := analyzeLines_num_ge tokens rest (n + 1) n (Or.inr hcon)
          omega
        · exact ih (k + 1) n h hcon
    · rw [if_neg h1] at h hcon
      exact ih (k + 1) n h hcon

theorem analyzeLines_count (tokens : List (List Char)) :
    ∀ (lines : List (List Char)) (k : Nat),
      (analyzeLines tokens lines k).1.length + (analyzeLines tokens lines k).2.length
        = lines.countP (fun l => matchesAny tokens (pyRstripNl l)) := by
  intro lines
  induction lines with
  | nil => intro k; rfl
  | cons line rest ih =>
    intro k
    have hr := ih (k + 1)
    have hcount : (line :: rest).countP (fun l => matchesAny tokens (pyRstripNl l))
        = rest.countP (fun l => matchesAny tokens (pyRstripNl l))
          + (if matchesAny tokens (pyRstripNl line) = true then 1 else 0) := by
      simp [List.countP_cons]
    rw [hcount]
    by_cases h1 : matchesAny tokens (pyRstripNl line) = true
    · rw [if_pos h1]
      by_cases h2 : isCommented (pyRstripNl line) = true
      · simp only [analyzeLines, if_pos h1, if_pos h2, List.length_cons]
        omega
      · simp only [analyzeLines, if_pos h1, if_neg h2, List.length_cons]
        omega
    · rw [if_neg h1]
      simp only [analyzeLines, if_neg h1]
      omega

/-- Claim C8: the scanner classifies each line into exactly one class: the
active and commented match lists are disjoint (no line number occurs in
both) and their lengths sum to the number of lines containing any token. -/
theorem analyze_config_file_partition (path content : List Char)
    (tokens : List (List Char)) (ht : tokens ≠ []) :
    (∀ n, n ∈ (analyze_config_file path content tokens).active_matches.map Match.line_number →
      n ∉ (analyze_config_file path content tokens).commented_matches.map Match.line_number) ∧
    (analyze_config_file path content tokens).active_matches.length
      + (analyze_config_file path content tokens).commented_matches.length
      = (pyLines content).countP (fun l => matchesAny tokens (pyRstripNl l)) := by
  refine ⟨fun n => ?_, ?_⟩
  · exact analyzeLines_disjoint tokens (pyLines content) 1 n
  · exact analyzeLines_count tokens (pyLines content) 1

/-- Claim C8 witness. -/
theorem analyze_config_file_partition_witness :
    (["mit".data] : List (List Char)) ≠ [] ∧
    ((∀ n, n ∈ (analyze_config_file "p".data "use mit\n# mit\nx\n".data
          ["mit".data]).active_matches.map Match.line_number →
      n ∉ (analyze_config_file "p".data "use mit\n# mit\nx\n".data
          ["mit".data]).commented_matches.map Match.line_number) ∧
    (analyze_config_file "p".data "use mit\n# mit\nx\n".data ["mit".data]).active_matches.length
      + (analyze_config_file "p".data "use mit\n# mit\nx\n".data
          ["mit".data]).commented_matches.length
      = (pyLines "use mit\n# mit\nx\n".data).countP
          (fun l => matchesAny ["mit".data] (pyRstripNl l))) :=
  ⟨by decide,
    analyze_config_file_partition "p".data "use mit\n# mit\nx\n".data ["mit".data]
      (by decide)⟩

/- ### Lemmas for idempotent deactivation (Claim C9) -/

/-- The shape of `pyLines` output: every line but possibly the last is a
newline-free body followed by `'\n'`; a final incomplete line is non-empty
and newline-free. -/
inductive Chunks : List (List Char) → Prop
  | nil : Chunks []
  | bare (l : List Char) (h1 : l ≠ []) (h2 : '\n' ∉ l) : Chunks [l]
  | full (b : List Char) (ls : List (List Char)) (hb : '\n' ∉ b) (hc : Chunks ls) :
      Chunks ((b ++ ['\n']) :: ls)

theorem pyLines_chunks (cs : List Char) : Chunks (pyLines cs) := by
  induction cs with
  | nil => exact Chunks.nil
  | cons c t ih =>
    by_cases hc : c = '\n'
    · subst hc
      rw [pyLines_cons, if_pos rfl]
      exact Chunks.full [] (pyLines t) (by simp) ih
    · rw [pyLines_cons, if_neg hc]
      cases hpt : pyLines t with
      | nil =>
        exact Chunks.bare [c] (List.cons_ne_nil c [])
          (fun hmem => hc (List.mem_singleton.1 hmem).symm)
      | cons l ls =>
        rw [hpt] at ih
        cases ih with
        | bare l h1 h2 =>
          exact Chunks.bare (c :: l) (List.cons_ne_nil c l)
            (fun hmem => (List.mem_cons.1 hmem).elim (fun h => hc h.symm) h2)
        | full b ls2 hb hc2 =>
          show Chunks (((c :: b) ++ ['\n']) :: ls)
          exact Chunks.full (c :: b) ls
            (fun hmem => (List.mem_cons.1 hmem).elim (fun h => hc h.symm) hb) hc2

theorem pyLines_bare : ∀ (l : List Char), l ≠ [] → '\n' ∉ l → pyLines l = [l] := by
  intro l
  induction l with
  | nil => intro h1 _; exact absurd rfl h1
  | cons c t ih =>
    intro _ h2
    have hc : c ≠ '\n' := fun h => h2 (by rw [h]; exact List.mem_cons_self _ _)
    rw [pyLines_cons, if_neg hc]
    cases t with
    | nil => rfl
    | cons d u =>
      rw [ih (List.cons_ne_nil d u) (fun h => h2 (List.mem_cons_of_mem c h))]

theorem pyLines_full : ∀ (b : List Char), '\n' ∉ b →
    ∀ rest, pyLines (b ++ '\n' :: rest) = (b ++ ['\n']) :: pyLines rest := by
  intro b
  induction b with
  | nil =>
    intro _ rest
    simp only [List.nil_append]
    rw [pyLines_cons, if_pos rfl]
  | cons c bt ih =>
    intro hb rest
    have hc : c ≠ '\n' := fun h => hb (by rw [h]; exact List.mem_cons_self _ _)
    rw [List.cons_append, pyLines_cons, if_neg hc,
      ih (fun h => hb (List.mem_cons_of_mem c h)) rest]
    rfl

theorem pyLines_flatten_chunks : ∀ {ls : List (List Char)}, Chunks ls →
    pyLines ls.flatten = ls := by
  intro ls h
  induction h with
  | nil => rfl
  | bare l h1 h2 =>
    simp only [List.flatten_cons, List.flatten_nil, List.append_nil]
    exact pyLines_bare l h1 h2
  | full b ls2 hb hc ih =>
    rw [List.flatten_cons, show (b ++ ['\n']) ++ ls2.flatten = b ++ '\n' :: ls2.flatten by
      rw [List.append_assoc]; rfl]
    rw [pyLines_full b hb ls2.flatten, ih]

theorem markerOf_no_newline {site stamp : List Char} (hs : '\n' ∉ site)
    (ht : '\n' ∉ stamp) : '\n' ∉ markerOf site stamp := by
  intro h
  simp only [markerOf, List.mem_append] at h
  rcases h with (((h | h) | h) | h) | h
  · revert h; decide
  · exact hs h
  · revert h; decide
  · exact ht h
  · revert h; decide

theorem chunks_commentLinesCore (targets : List Nat) (site stamp : List Char)
    (hm : '\n' ∉ markerOf site stamp) :
    ∀ {ls : List (List Char)}, Chunks ls → ∀ n,
      Chunks (commentLinesCore targets site stamp ls n) := by
  intro ls h
  induction h with
  | nil => intro n; exact Chunks.nil
  | bare l h1 h2 =>
    intro n
    simp only [commentLinesCore]
    by_cases hg : n ∈ targets ∧ isCommented l = false
    · rw [if_pos hg]
      refine Chunks.bare _ (fun h => h1 (List.append_eq_nil.1 h).2) ?_
      intro hmem
      rcases List.mem_append.1 hmem with h | h
      · exact hm h
      · exact h2 h
    · rw [if_neg hg]
      exact Chunks.bare l h1 h2
  | full b ls2 hb hc ih =>
    intro n
    simp only [commentLinesCore]
    by_cases hg : n ∈ targets ∧ isCommented (b ++ ['\n']) = false
    · rw [if_pos hg, show markerOf site stamp ++ (b ++ ['\n'])
        = (markerOf site stamp ++ b) ++ ['\n'] by rw [List.append_assoc]]
      refine Chunks.full _ _ ?_ (ih (n + 1))
      intro hmem
      rcases List.mem_append.1 hmem with h | h
      · exact hm h
      · exact hb h
    · rw [if_neg hg]
      exact Chunks.full b _ hb (ih (n + 1))

theorem markerOf_cons (site stamp : List Char) :
    markerOf site stamp
      = '#' :: (" deactivated ".data ++ site ++ " ".data ++ stamp ++ " ".data) := rfl

theorem isCommented_cons_space {c : Char} (hsp : isPySpace c = true) (x : List Char) :
    isCommented (c :: x) = isCommented x := by
  unfold isCommented pyLstrip
  rw [List.dropWhile_cons, if_pos hsp]

theorem isCommented_cons_nonspace {c : Char} (hsp : isPySpace c = false) (x : List Char) :
    isCommented (c :: x) = decide (c = '#') := by
  unfold isCommented pyLstrip
  rw [List.dropWhile_cons, if_neg (by simp [hsp])]
  rfl

theorem isCommented_hash (t : List Char) : isCommented ('#' :: t) = true := by
  rw [isCommented_cons_nonspace (by decide) t]
  decide

theorem pyRstripNl_hash (t : List Char) : ∃ r, pyRstripNl ('#' :: t) = '#' :: r := by
  rw [pyRstripNl_cons]
  cases h : pyRstripNl t with
  | nil => exact ⟨[], by rw [if_neg (by decide : ¬('#' = '\n'))]⟩
  | cons r rs => exact ⟨r :: rs, rfl⟩

theorem isCommented_pyRstripNl (l : List Char) :
    isCommented (pyRstripNl l) = isCommented l := by
  induction l with
  | nil => rfl
  | cons c t ih =>
    rw [pyRstripNl_cons]
    cases h : pyRstripNl t with
    | nil =>
      rw [h] at ih
      by_cases hc : c = '\n'
      · rw [if_pos hc]
        subst hc
        rw [isCommented_cons_space (by decide) t, ← ih]
      · rw [if_neg hc]
        by_cases hsp : isPySpace c = true
        · rw [isCommented_cons_space hsp [], isCommented_cons_space hsp t, ← ih]
        · rw [isCommented_cons_nonspace (Bool.not_eq_true _ ▸ hsp) [],
            isCommented_cons_nonspace (Bool.not_eq_true _ ▸ hsp) t]
    | cons r rs =>
      rw [h] at ih
      by_cases hsp : isPySpace c = true
      · rw [isCommented_cons_space hsp (r :: rs), isCommented_cons_space hsp t, ih]
      · rw [isCommented_cons_nonspace (Bool.not_eq_true _ ▸ hsp) (r :: rs),
          isCommented_cons_nonspace (Bool.not_eq_true _ ▸ hsp) t]

theorem analyzeLines_complete (tokens : List (List Char)) :
    ∀ (lines : List (List Char)) (k j : Nat) (l : List Char),
      lines[j]? = some l → matchesAny tokens (pyRstripNl l) = true →
      isCommented (pyRstripNl l) = false →
      (k + j) ∈ (analyzeLines tokens lines k).1.map Match.line_number := by
  intro lines
  induction lines with
  | nil => intro k j l hj _ _; simp at hj
  | cons line rest ih =>
    intro k j l hj hmt hcm
    cases j with
    | zero =>
      simp only [List.getElem?_cons_zero, Option.some.injEq] at hj
      subst hj
      have hcm2 : ¬ isCommented (pyRstripNl line) = true := by simp [hcm]
      simp only [analyzeLines, if_pos hmt, if_neg hcm2]
      refine List.mem_map.2 ⟨⟨k, pyRstripNl line⟩, List.mem_cons_self _ _, ?_⟩
      simp
    | succ j =>
      have hmem := ih (k + 1) j l (by simpa using hj) hmt hcm
      have harith : k + (j + 1) = (k + 1) + j := by omega
      rw [harith]
      simp only [analyzeLines]
      by_cases h1 : matchesAny tokens (pyRstripNl line) = true
      · rw [if_pos h1]
        by_cases h2 : isCommented (pyRstripNl line) = true
        · rw [if_pos h2]; exact hmem
        · rw [if_neg h2]
          simp only [List.map_cons, List.mem_cons]
          exact Or.inr hmem
      · rw [if_neg h1]; exact hmem

theorem analyzeLines_no_active (tokens : List (List Char)) :
    ∀ (lines : List (List Char)) (k : Nat),
      (∀ (j : Nat) (l : List Char), lines[j]? = some l →
        matchesAny tokens (pyRstripNl l) = false ∨ isCommented (pyRstripNl l) = true) →
      (analyzeLines tokens lines k).1 = [] := by
  intro lines
  induction lines with
  | nil => intro k _; rfl
  | cons line rest ih =>
    intro k hyp
    have h0 := hyp 0 line (by simp)
    have hrest : ∀ (j : Nat) (l : List Char), rest[j]? = some l →
        matchesAny tokens (pyRstripNl l) = false ∨ isCommented (pyRstripNl l) = true :=
      fun j l hj => hyp (j + 1) l (by simpa using hj)
    simp only [analyzeLines]
    rcases h0 with h0 | h0
    · rw [if_neg (by simp [h0])]
      exact ih (k + 1) hrest
    · by_cases h1 : matchesAny tokens (pyRstripNl line) = true
      · rw [if_pos h1, if_pos h0]
        exact ih (k + 1) hrest
      · rw [if_neg h1]
        exact ih (k + 1) hrest

theorem active_after_commentLines (tokens : List (List Char)) (site stamp : List Char)
    (lines : List (List Char)) :
    (analyzeLines tokens
      (commentLinesCore ((analyzeLines tokens lines 1).1.map Match.line_number)
        site stamp lines 1) 1).1 = [] := by
  apply analyzeLines_no_active
  intro j l' hj
  rw [commentLinesCore_getElem? _ _ _ lines 1 j] at hj
  cases hl : lines[j]? with
  | none => rw [hl] at hj; simp at hj
  | some l =>
    rw [hl] at hj
    simp only [Option.map_some', Option.some.injEq] at hj
    by_cases hg : (1 + j) ∈ (analyzeLines tokens lines 1).1.map Match.line_number ∧
        isCommented l = false
    · rw [if_pos hg] at hj
      subst hj
      right
      rw [markerOf_cons,
        show ('#' :: (" deactivated ".data ++ site ++ " ".data ++ stamp ++ " ".data)) ++ l
          = '#' :: ((" deactivated ".data ++ site ++ " ".data ++ stamp ++ " ".data) ++ l)
          from rfl]
      rcases pyRstripNl_hash ((" deactivated ".data ++ site ++ " ".data ++ stamp
        ++ " ".data) ++ l) with ⟨r, hr⟩
      rw [hr]
      exact isCommented_hash r
    · rw [if_neg hg] at hj
      subst hj
      by_cases hmt : matchesAny tokens (pyRstripNl l) = true
      · by_cases hcm : isCommented (pyRstripNl l) = true
        · right; exact hcm
        · exfalso
          apply hg
          refine ⟨analyzeLines_complete tokens lines 1 j l hl hmt
            (Bool.not_eq_true _ ▸ hcm), ?_⟩
          rw [← isCommented_pyRstripNl l]
          exact Bool.not_eq_true _ ▸ hcm
      · left
        exact Bool.not_eq_true _ ▸ hmt

/-- Claim C9: applying `comment_matching_lines` with the active-match list of
a scan, then re-scanning the rewritten file with the same token set, yields
no active matches at all; a second application is therefore a no-op.  The
site and stamp are assumed newline-free (as produced by `main`). -/
theorem deactivation_idempotent (fs : FS) (path content site stamp bstamp : List Char)
    (tokens : List (List Char))
    (hc : lookupFile fs.files path = some content)
    (hsite : '\n' ∉ site) (hstamp : '\n' ∉ stamp) :
    ∃ (fs' : FS) (ret content' : List Char),
      comment_matching_lines fs path
          (analyze_config_file path content tokens).active_matches site stamp bstamp
        = some (fs', ret) ∧
      lookupFile fs'.files path = some content' ∧
      (analyze_config_file path content' tokens).active_matches = [] ∧
      comment_matching_lines fs' path
          (analyze_config_file path content' tokens).active_matches site stamp bstamp
        = some (fs', path) := by
  by_cases hm : (analyze_config_file path content tokens).active_matches = []
  · refine ⟨fs, path, content, ?_, hc, hm, ?_⟩
    · rw [hm]; exact comment_matching_lines_noop fs path site stamp bstamp
    · rw [hm]; exact comment_matching_lines_noop fs path site stamp bstamp
  · have heq := comment_matching_lines_eq fs path
      (analyze_config_file path content tokens).active_matches site stamp bstamp content hm hc
    have hresplit : pyLines (commentLinesCore
        ((analyze_config_file path content tokens).active_matches.map Match.line_number)
        site stamp (pyLines content) 1).flatten
        = commentLinesCore
          ((analyze_config_file path content tokens).active_matches.map Match.line_number)
          site stamp (pyLines content) 1 :=
      pyLines_flatten_chunks
        (chunks_commentLinesCore _ _ _ (markerOf_no_newline hsite hstamp)
          (pyLines_chunks content) 1)
    have hempty : (analyze_config_file path (commentLinesCore
        ((analyze_config_file path content tokens).active_matches.map Match.line_number)
        site stamp (pyLines content) 1).flatten tokens).active_matches = [] := by
      show (analyzeLines tokens (pyLines (commentLinesCore
        ((analyze_config_file path content tokens).active_matches.map Match.line_number)
        site stamp (pyLines content) 1).flatten) 1).1 = []
      rw [hresplit]
      exact active_after_commentLines tokens site stamp (pyLines content)
    refine ⟨_, _, _, heq, ?_, hempty, ?_⟩
    · simp only [lookupFile]
      simp
    · rw [hempty]
      exact comment_matching_lines_noop _ path site stamp bstamp

/-- Claim C9 witness. -/
theorem deactivation_idempotent_witness :
    lookupFile (FS.mk [("cfg".data, "use mit\n# mit old\nplain\n".data)] []).files "cfg".data
      = some "use mit\n# mit old\nplain\n".data ∧
    ('\n' ∉ "mit".data) ∧ ('\n' ∉ "2026-01-01".data) ∧
    (∃ (fs' : FS) (ret content' : List Char),
      comment_matching_lines (FS.mk [("cfg".data, "use mit\n# mit old\nplain\n".data)] [])
          "cfg".data
          (analyze_config_file "cfg".data "use mit\n# mit old\nplain\n".data
            ["mit".data]).active_matches
          "mit".data "2026-01-01".data "20260101000000".data
        = some (fs', ret) ∧
      lookupFile fs'.files "cfg".data = some content' ∧
      (analyze_config_file "cfg".data content' ["mit".data]).active_matches = [] ∧
      comment_matching_lines fs' "cfg".data
          (analyze_config_file "cfg".data content' ["mit".data]).active_matches
          "mit".data "2026-01-01".data "20260101000000".data
        = some (fs', "cfg".data)) :=
  ⟨by decide, by decide, by decide,
    deactivation_idempotent (FS.mk [("cfg".data, "use mit\n# mit old\nplain\n".data)] [])
      "cfg".data "use mit\n# mit old\nplain\n".data "mit".data "2026-01-01".data
      "20260101000000".data ["mit".data] (by decide) (by decide) (by decide)⟩

/- ### The orchestrating `main` -/

/-- The fixed registry `CONFIG_PATHS` (label, path). -/
def CONFIG_PATHS : List (List Char × List Char) :=
  [("Apache vhosts".data, "/etc/apache2/sites-available/esp_sites.conf".data),
   ("System crontab".data, "/etc/crontab".data),
   ("Exim config".data, "/etc/exim4/update-exim4.conf.conf".data)]

/-- Python `Path.parent` on an already-normalized path string (`resolve` is modelled
as the identity: no symbolic links in the model). -/
def parentPath (p : List Char) : List Char :=
  match p.reverse.dropWhile (fun c => c ≠ '/') with
  | [] => ".".data
  | ['/'] => "/".data
  | _ :: rest => rest.reverse

/-- The parsed command line. -/
structure Args where
  site : List Char
  tokens : List (List Char)
  apply : Bool
  allow_missing : Bool
  sites_root : List Char
  archive_dir : List Char

/-- The timestamps a run draws from `datetime.now()`: the second-resolution
`%Y%m%d%H%M%S` form and the `%Y-%m-%d` date stamp. -/
structure Clock where
  now14 : List Char
  today : List Char

/-- Outcome of a run: exit code, final filesystem, lines printed. -/
structure RunResult where
  exitCode : Nat
  fs : FS
  out : List (List Char)

/-- The config scanning loop of `main`: the analyses of the existing config
files (with labels, in order), the blocking errors collected by the loop,
and the lines printed by it. -/
def scanConfigs (fs : FS) (tokens : List (List Char)) (applyMode allowMissing : Bool) :
    List (List Char × List Char) →
      List (List Char × FileAnalysis) × List (List Char) × List (List Char)
  | [] => ([], [], [])
  | (label, path) :: rest =>
    let r := scanConfigs fs tokens applyMode allowMissing rest
    match lookupFile fs.files path with
    | none => (r.1, ("Missing config file: ".data ++ path) :: r.2.1, r.2.2)
    | some content =>
      let a := analyze_config_file path content tokens
      if applyMode = true ∧ allowMissing = false ∧ a.active_matches = [] then
        ((label, a) :: r.1,
          ("No active matching lines found in ".data ++ path
            ++ ". Use --allow-missing to skip this safety check.".data) :: r.2.1,
          print_analysis label a ++ r.2.2)
      else ((label, a) :: r.1, r.2.1, print_analysis label a ++ r.2.2)

/-- The site-directory precondition checks of `main`. -/
def siteDirErrors (fs : FS) (siteDir archiveDir : List Char) : List (List Char) :=
  if existsPath fs siteDir = false then
    ["Site directory does not exist: ".data ++ siteDir]
  else if parentPath siteDir = archiveDir then
    ["Site directory is already under archive: ".data ++ siteDir]
  else []

/-- All blocking precondition errors of a run, in the order `main` collects
them: config-loop errors first, then the site-directory checks. -/
def blockingErrors (args : Args) (fs : FS) : List (List Char) :=
  (scanConfigs fs (normalize_tokens args.site args.tokens) args.apply args.allow_missing
    CONFIG_PATHS).2.1
  ++ siteDirErrors fs (args.sites_root ++ '/' :: args.site) args.archive_dir

/-- Lines printed by `main` before the blocking-error check. -/
def mainPreOut (args : Args) (fs : FS) (clk : Clock) : List (List Char) :=
  ["Mode: ".data ++ (if args.apply then "APPLY".data else "DRY RUN".data),
   "Matching tokens: ".data
     ++ List.intercalate ", ".data (normalize_tokens args.site args.tokens),
   []]
  ++ (scanConfigs fs (normalize_tokens args.site args.tokens) args.apply args.allow_missing
      CONFIG_PATHS).2.2
  ++ ["Site directory: ".data ++ (args.sites_root ++ '/' :: args.site),
      "Archive target: ".data
        ++ choose_archive_target fs args.archive_dir args.site clk.now14,
      []]

/-- Python `shutil.move(src, dst)` on the modelled filesystem. -/
def fsMove (fs : FS) (src dst : List Char) : Option FS :=
  if src ∈ fs.dirs then some ⟨fs.files, dst :: fs.dirs.erase src⟩
  else
    match lookupFile fs.files src with
    | some c => some ⟨(dst, c) :: fs.files.filter (fun e => e.1 ≠ src), fs.dirs⟩
    | none => none

/-- The apply-phase loop over the scanned config files. -/
def applyLoop (site stamp bstamp : List Char) :
    List (List Char × FileAnalysis) → FS → List (List Char) →
      Option (FS × List (List Char))
  | [], fs, out => some (fs, out)
  | (_, a) :: rest, fs, out =>
    match comment_matching_lines fs a.path a.active_matches site stamp bstamp with
    | none => none
    | some (fs2, ret) =>
      applyLoop site stamp bstamp rest fs2 (out ++
        [if a.active_matches ≠ [] then
          "  Updated ".data ++ a.path ++ " (backup: ".data ++ ret ++ ")".data
        else "  No updates needed in ".data ++ a.path])

/-- The apply phase of `main`: rewrite each config file, create the archive
directory (`mkdir(parents=True, exist_ok=True)`), and move the site
directory to the chosen archive target. -/
def applyPhase (args : Args) (clk : Clock) (fs : FS)
    (analyses : List (List Char × FileAnalysis)) (siteDir target : List Char)
    (out0 : List (List Char)) : Option RunResult :=
  match applyLoop args.site clk.today clk.now14 analyses fs
      (out0 ++ ["Applying changes...".data]) with
  | none => none
  | some (fs1, out1) =>
    match fsMove ⟨fs1.files, args.archive_dir :: fs1.dirs⟩ siteDir target with
    | none => none
    | some fs3 =>
      some ⟨0, fs3, out1 ++ ["  Moved ".data ++ siteDir ++ " -> ".data ++ target,
        "Done.".data]⟩

/-- Function `main`: scan, report, check preconditions, then either stop with exit
code 2 (blocked), stop with 0 (dry run), or apply and stop with 0.  `none`
models an uncaught filesystem exception during the apply phase. -/
def main (args : Args) (fs : FS) (clk : Clock) : Option RunResult :=
  if blockingErrors args fs = [] then
    if args.apply = false then
      some ⟨0, fs, mainPreOut args fs clk
        ++ ["Dry run complete. Re-run with --apply to make changes.".data]⟩
    else
      applyPhase args clk fs
        (scanConfigs fs (normalize_tokens args.site args.tokens) args.apply
          args.allow_missing CONFIG_PATHS).1
        (args.sites_root ++ '/' :: args.site)
        (choose_archive_target fs args.archive_dir args.site clk.now14)
        (mainPreOut args fs clk)
  else
    some ⟨2, fs, mainPreOut args fs clk
      ++ ("Cannot continue:".data :: (blockingErrors args fs).map
          (fun e => "  - ".data ++ e))⟩

/-- Claim C2: when any blocking precondition error is present (missing config
file; in apply mode without allow-missing, a config with no active matches;
missing site directory; site directory already under the archive), `main`
prints every collected error, exits with status 2 and performs no mutation:
the filesystem (files, backups and directories) is returned unchanged. -/
theorem main_blocked_reports_all (args : Args) (fs : FS) (clk : Clock)
    (h : blockingErrors args fs ≠ []) :
    ∃ r : RunResult, main args fs clk = some r ∧ r.exitCode = 2 ∧ r.fs = fs ∧
      ∀ e ∈ blockingErrors args fs, ("  - ".data ++ e) ∈ r.out := by
  refine ⟨⟨2, fs, mainPreOut args fs clk
    ++ ("Cannot continue:".data :: (blockingErrors args fs).map
        (fun e => "  - ".data ++ e))⟩, ?_, rfl, rfl, ?_⟩
  · rw [main, if_neg h]
  · intro e he
    exact List.mem_append_right _
      (List.mem_cons_of_mem _ (List.mem_map.2 ⟨e, he, rfl⟩))

/-- Claim C2 witness (empty filesystem: every config file and the site
directory are missing). -/
theorem main_blocked_reports_all_witness :
    blockingErrors
        (Args.mk "mit".data [] false false "/lu/sites".data "/lu/sites/archive".data)
        (FS.mk [] []) ≠ [] ∧
    (∃ r : RunResult,
      main (Args.mk "mit".data [] false false "/lu/sites".data "/lu/sites/archive".data)
          (FS.mk [] []) (Clock.mk "20260101000000".data "2026-01-01".data) = some r ∧
      r.exitCode = 2 ∧ r.fs = FS.mk [] [] ∧
      ∀ e ∈ blockingErrors
          (Args.mk "mit".data [] false false "/lu/sites".data "/lu/sites/archive".data)
          (FS.mk [] []), ("  - ".data ++ e) ∈ r.out) :=
  ⟨by decide,
    main_blocked_reports_all
      (Args.mk "mit".data [] false false "/lu/sites".data "/lu/sites/archive".data)
      (FS.mk [] []) (Clock.mk "20260101000000".data "2026-01-01".data) (by decide)⟩

/-- Claim C5: a run that is not in apply mode performs no mutation at all —
no file rewritten, no backup, no directory created or moved — regardless of
any errors found; and when no blocking error is present it prints the
dry-run completion message and exits with status 0. -/
theorem main_dry_run (args : Args) (fs : FS) (clk : Clock)
    (h : args.apply = false) :
    ∃ r : RunResult, main args fs clk = some r ∧ r.fs = fs ∧
      (blockingErrors args fs = [] → r.exitCode = 0 ∧
        "Dry run complete. Re-run with --apply to make changes.".data ∈ r.out) := by
  by_cases hb : blockingErrors args fs = []
  · refine ⟨⟨0, fs, mainPreOut args fs clk
      ++ ["Dry run complete. Re-run with --apply to make changes.".data]⟩,
      ?_, rfl, fun _ => ⟨rfl, ?_⟩⟩
    · rw [main, if_pos hb, if_pos h]
    · exact List.mem_append_right _ (List.mem_cons_self _ _)
  · refine ⟨⟨2, fs, mainPreOut args fs clk
      ++ ("Cannot continue:".data :: (blockingErrors args fs).map
          (fun e => "  - ".data ++ e))⟩, ?_, rfl, fun hbe => absurd hbe hb⟩
    rw [main, if_neg hb]

/-- Claim C5 witness (a complete dry run over a filesystem holding all three
config files and the site directory). -/
theorem main_dry_run_witness :
    (Args.mk "mit".data [] false false "/lu/sites".data "/lu/sites/archive".data).apply
        = false ∧
    (∃ r : RunResult,
      main (Args.mk "mit".data [] false false "/lu/sites".data "/lu/sites/archive".data)
          (FS.mk
            [("/etc/apache2/sites-available/esp_sites.conf".data, "vhost mit\n".data),
             ("/etc/crontab".data, "cron mit\n".data),
             ("/etc/exim4/update-exim4.conf.conf".data, "exim mit\n".data)]
            ["/lu/sites/mit".data])
          (Clock.mk "20260101000000".data "2026-01-01".data) = some r ∧
      r.fs = FS.mk
          [("/etc/apache2/sites-available/esp_sites.conf".data, "vhost mit\n".data),
           ("/etc/crontab".data, "cron mit\n".data),
           ("/etc/exim4/update-exim4.conf.conf".data, "exim mit\n".data)]
          ["/lu/sites/mit".data] ∧
      (blockingErrors
          (Args.mk "mit".data [] false false "/lu/sites".data "/lu/sites/archive".data)
          (FS.mk
            [("/etc/apache2/sites-available/esp_sites.conf".data, "vhost mit\n".data),
             ("/etc/crontab".data, "cron mit\n".data),
             ("/etc/exim4/update-exim4.conf.conf".data, "exim mit\n".data)]
            ["/lu/sites/mit".data]) = [] → r.exitCode = 0 ∧
        "Dry run complete. Re-run with --apply to make changes.".data ∈ r.out)) :=
  ⟨by decide,
    main_dry_run
      (Args.mk "mit".data [] false false "/lu/sites".data "/lu/sites/archive".data)
      (FS.mk
        [("/etc/apache2/sites-available/esp_sites.conf".data, "vhost mit\n".data),
         ("/etc/crontab".data, "cron mit\n".data),
         ("/etc/exim4/update-exim4.conf.conf".data, "exim mit\n".data)]
        ["/lu/sites/mit".data])
      (Clock.mk "20260101000000".data "2026-01-01".data) (by decide)⟩

end DeactivateSite
